import Mathlib

/-
Shallow embedding of the JWK registry + keystore subsystem
(src/lib/jwk/keystore.js) and proofs about its documented behavior.

JavaScript objects whose string-keyed properties matter for iteration order
(the registry's internal map, a keystore's keysets, the heap of caller-side
filter objects) are embedded as insertion-ordered association lists.
External collaborators (Key factories, the JSON.parse host builtin, the
BaseKey constructor from jwk/basekey.js which is not part of the analyzed
sources) are either parameters or are modelled from the specification, as
marked on each such definition.
-/

set_option autoImplicit false

namespace Jwk

/-! ## JavaScript-level outcome types -/

/-- Errors surfaced by the keystore code: Error objects, runtime TypeErrors,
JSON syntax errors from the host parser, and bare-string rejection reasons. -/
inductive JSErr where
  | errorMsg (m : String)
  | typeError (m : String)
  | syntaxError (m : String)
  | stringVal (s : String)
deriving Repr, DecidableEq

/-- Outcome of calling a promise-returning JavaScript function: a synchronous
throw, a promise that settles rejected, or a promise that settles resolved. -/
inductive JSOutcome (α : Type) where
  | thrown (e : JSErr)
  | rejected (e : JSErr)
  | resolved (a : α)
deriving Repr

/-! ## Insertion-ordered association lists (JavaScript object semantics) -/

/-- Lookup of a string-keyed property: first entry with the key. -/
def alLookup {β : Type} : List (String × β) → String → Option β
  | [], _ => none
  | (k0, v0) :: rest, k => if k0 = k then some v0 else alLookup rest k

/-- Property write: overwrite in place when the key exists, append at the end
otherwise (JavaScript objects keep insertion order for string keys). -/
def alSet {β : Type} : List (String × β) → String → β → List (String × β)
  | [], k, v => [(k, v)]
  | (k0, v0) :: rest, k, v =>
    if k0 = k then (k, v) :: rest else (k0, v0) :: alSet rest k v

/-- Property deletion: removes the entry, preserving the order of the rest. -/
def alDelete {β : Type} : List (String × β) → String → List (String × β)
  | [], _ => []
  | (k0, v0) :: rest, k =>
    if k0 = k then rest else (k0, v0) :: alDelete rest k

/-! ## Data model: JWK data, keys, factories -/

/-- JSON representation of a single JWK: the four fields the keystore filter
logic inspects, plus the remaining public and private material fields. -/
structure JWKData where
  kty : Option String := none
  kid : Option String := none
  use : Option String := none
  alg : Option String := none
  pubFields : List (String × String) := []
  privFields : List (String × String) := []
deriving Repr, DecidableEq

/-- Internal configuration a Key factory's prepare step produces; the only
part the keystore core observes is the algorithm-support capability query. -/
structure KeyCfg where
  supports : String → Bool

/-- Modelled from the spec: JWK.BaseKey (jwk/basekey.js) is not among the
analyzed sources. Per the Key contract a Key carries its JSON data (with
identifier, usage and algorithm fields), an object identity, and the
capability query from its prepared configuration. Object identity of the
JavaScript runtime is represented by the oid field: distinct runtime objects
carry distinct oids. -/
structure Key where
  oid : Nat
  data : JWKData
  supports : String → Bool

def Key.kty (k : Key) : Option String := k.data.kty
def Key.kid (k : Key) : Option String := k.data.kid
def Key.use (k : Key) : Option String := k.data.use
def Key.alg (k : Key) : Option String := k.data.alg

/-- Modelled from the spec: a Key's toJSON(isPrivate) yields its JSON
representation, with the private material fields present exactly when
isPrivate is set (spec section 6: private material fields are present only
when explicitly requested). -/
def Key.toJSON (k : Key) (isPrivate : Bool) : JWKData :=
  if isPrivate then k.data else { k.data with privFields := [] }

/-- The kty property of a factory object, as the dynamic checks in
register/unregister see it: absent, present but not a string, or a string. -/
inductive KtyVal where
  | missing
  | nonString
  | strVal (s : String)
deriving Repr, DecidableEq

/-- Size argument of generate: a string (curve name), a number, or absent;
its meaning is defined by the factory. -/
inductive KeySize where
  | sizeStr (s : String)
  | sizeNum (n : Nat)
  | sizeAbsent
deriving Repr, DecidableEq

/-- A Key factory capability: a kty tag plus the external generate and
prepare operations, given here as the settled outcomes of their promises. -/
structure Factory where
  ktyVal : KtyVal
  generate : KeySize → Except JSErr JWKData
  prepare : JWKData → Except JSErr KeyCfg

/-! ## The registry -/

/-- Internal state of a JWKRegistry: the types object mapping tag strings to
factories. -/
abbrev Registry := List (String × Factory)

/-- JWKRegistry register: throws unless the factory is present and its kty is
a non-empty string; otherwise stores (overwriting) the mapping tag to
factory. -/
def JWKRegistry.register (reg : Registry) (factory : Option Factory) :
    Except JSErr Registry :=
  match factory with
  | none => .error (.errorMsg "invalid Key factory")
  | some f =>
    match f.ktyVal with
    | .strVal s =>
      if s = "" then .error (.errorMsg "invalid Key factory")
      else .ok (alSet reg s f)
    | _ => .error (.errorMsg "invalid Key factory")

/-- JWKRegistry get: reads the types object at kty or the empty string when
kty is falsy; absent entries give the explicit undefined result. -/
def JWKRegistry.get (reg : Registry) (kty : Option String) : Option Factory :=
  alLookup reg (kty.getD "")

/-! ## The keystore: state and query core -/

/-- A keystore's keysets object: identifier string to ordered key sequence. -/
abbrev KeySets := List (String × List Key)

/-- A keystore: its keysets plus the optional parent fixed at construction.
The parent chain is finite by construction (the child holds the only
reference and no cycle can be formed). -/
inductive Store where
  | leaf (ks : KeySets)
  | node (ks : KeySets) (parent : Store)

def Store.keysets : Store → KeySets
  | .leaf ks => ks
  | .node ks _ => ks

def Store.withKeysets : Store → KeySets → Store
  | .leaf _, ks => .leaf ks
  | .node _ p, ks => .node ks p

def Store.parentOf : Store → Option Store
  | .leaf _ => none
  | .node _ p => some p

/-- A filter object passed to all and get. -/
structure Filter where
  kty : Option String := none
  use : Option String := none
  alg : Option String := none
  kid : Option String := none
deriving Repr, DecidableEq

/-- Truthiness of an optional string property: absent and the empty string
are falsy. -/
def strTruthy : Option String → Bool
  | some s => if s = "" then false else true
  | none => false

/-- The per-key matching predicate of JWKStore all (the inner matches
closure): kty and use clauses reject on a set-and-different field; the alg
clause skips the key-field comparison for the sentinel "dir" but always ends
in the capability query. -/
def keyMatches (props : Filter) (key : Key) : Bool :=
  if strTruthy props.kty && strTruthy key.kty
      && (props.kty.getD "" != key.kty.getD "") then false
  else if strTruthy props.use && strTruthy key.use
      && (props.use.getD "" != key.use.getD "") then false
  else if strTruthy props.alg then
    if (props.alg.getD "" != "dir") && strTruthy key.alg
        && (props.alg.getD "" != key.alg.getD "") then false
    else key.supports (props.alg.getD "")
  else true

/-- Local part of all: walk the keysets in insertion order, skip buckets the
kid filter excludes, and concatenate the per-bucket matches. -/
def localAll (ks : KeySets) (props : Filter) : List Key :=
  ks.foldl
    (fun acc pr =>
      if strTruthy props.kid && (props.kid.getD "" != pr.1) then acc
      else acc ++ pr.2.filter (keyMatches props))
    []

/-- JWKStore all: local candidates, then (unless local is truthy) the
parent's own all with no local flag appended. -/
def Store.all : Store → Filter → Bool → List Key
  | .leaf ks, props, _ => localAll ks props
  | .node ks p, props, loc =>
    localAll ks props ++ (if loc then [] else Store.all p props false)

/-! ## Mutation: add, generate, remove -/

/-- Argument of JWKStore add, as its dynamic type checks classify it: a
string (to be parsed as JSON), an existing Key instance (isKey passes), or a
plain object. -/
inductive AddInput where
  | text (t : String)
  | keyInput (k : Key)
  | rawData (d : JWKData)

/-- Modelled from the spec: the BaseKey constructor (jwk/basekey.js, not
among the analyzed sources) makes a fresh Key object bound to the calling
store from the tag, the JSON data and the prepared configuration. The store
binding is implicit in the pure embedding; the fresh runtime object identity
is the oid argument, supplied by the caller as a fresh value. -/
def mkBaseKey (_kty : Option String) (data : JWKData) (cfg : KeyCfg)
    (oid : Nat) : Key :=
  { oid := oid, data := data, supports := cfg.supports }

/-- JWKStore add: normalize the input (text is parsed by the host JSON
parser, throwing synchronously on bad text; a Key instance is replaced by its
complete toJSON(true) representation), look up the factory (rejecting when
the tag is unsupported), run the factory's prepare, construct a BaseKey and
append it to the bucket named by its kid (empty string when falsy). The
returned store is the post-call state of the receiver; it is unchanged on
every non-resolved outcome. -/
def JWKStore.add (reg : Registry) (parseJWK : String → Option JWKData)
    (st : Store) (input : AddInput) (oid : Nat) : Store × JSOutcome Key :=
  let data? : Except JSErr JWKData :=
    match input with
    | .text t =>
      match parseJWK t with
      | none => .error (.syntaxError t)
      | some d => .ok d
    | .keyInput k => .ok (k.toJSON true)
    | .rawData d => .ok d
  match data? with
  | .error e => (st, .thrown e)
  | .ok jwk =>
    match JWKRegistry.get reg jwk.kty with
    | none => (st, .rejected (.errorMsg "unsupported key type"))
    | some keytype =>
      match keytype.prepare jwk with
      | .error e => (st, .rejected e)
      | .ok cfg =>
        let k := mkBaseKey jwk.kty jwk cfg oid
        let kid := k.kid.getD ""
        let keys := (alLookup st.keysets kid).getD []
        (st.withKeysets (alSet st.keysets kid (keys ++ [k])), .resolved k)

/-- Modelled from the spec: util/merge (required from ../util/merge, not
among the analyzed sources) merges the factory output over the caller
props; set fields of the second argument take precedence, entries of the
material-field lists are overridden by name in place and new ones appended. -/
def mergeData (base over : JWKData) : JWKData :=
  let mergeField : Option String → Option String → Option String :=
    fun a b => match b with | some s => some s | none => a
  let overrideFields : List (String × String) → List (String × String) →
      List (String × String) :=
    fun bs es =>
      (bs.map fun p =>
        match es.find? (fun q => q.1 == p.1) with
        | some q => q
        | none => p)
      ++ es.filter fun q => !(bs.any fun p => p.1 == q.1)
  { kty := mergeField base.kty over.kty
    kid := mergeField base.kid over.kid
    use := mergeField base.use over.use
    alg := mergeField base.alg over.alg
    pubFields := overrideFields base.pubFields over.pubFields
    privFields := overrideFields base.privFields over.privFields }

/-- JWKStore generate: factory lookup (rejecting when unsupported), clone of
the caller props with the kty forced, the factory's generate, then the merge
of its output over the props with the kty re-asserted, delegated to add. -/
def JWKStore.generate (reg : Registry) (parseJWK : String → Option JWKData)
    (st : Store) (kty : String) (size : KeySize) (props : Option JWKData)
    (oid : Nat) : Store × JSOutcome Key :=
  match JWKRegistry.get reg (some kty) with
  | none => (st, .rejected (.errorMsg "unsupported key type"))
  | some keytype =>
    let props1 := { props.getD {} with kty := some kty }
    match keytype.generate size with
    | .error e => (st, .rejected e)
    | .ok jwk =>
      let merged := { mergeData props1 jwk with kty := some kty }
      JWKStore.add reg parseJWK st (.rawData merged) oid

/-- Bucket name the remove code reads: the raw property access keysets of
the key's kid coerces an absent kid to the string "undefined" (JavaScript
property-key coercion), with no empty-string fallback. -/
def removeBucketName : Option String → String
  | some s => s
  | none => "undefined"

/-- Position of a key in a bucket by JavaScript strict equality, which for
objects is reference identity, represented by the oid: the indexOf call of
remove. -/
def keyIndexOf : List Key → Key → Option Nat
  | [], _ => none
  | x :: rest, k =>
    if x.oid == k.oid then some 0
    else (keyIndexOf rest k).map (· + 1)

/-- JWKStore remove: no-op for an absent key, a missing bucket, or a key not
found by identity; otherwise splice the key out and delete the bucket when
it empties. -/
def JWKStore.remove (st : Store) (jwk : Option Key) : Store :=
  match jwk with
  | none => st
  | some k =>
    let kb := removeBucketName k.kid
    match alLookup st.keysets kb with
    | none => st
    | some keys =>
      match keyIndexOf keys k with
      | none => st
      | some pos =>
        let keys2 := keys.eraseIdx pos
        if keys2.isEmpty then st.withKeysets (alDelete st.keysets kb)
        else st.withKeysets (alSet st.keysets kb keys2)

/-! ## Serialization -/

/-- JSON representation of a keystore: a JWK Set object. -/
structure KeySetJSON where
  keys : List JWKData
deriving Repr, DecidableEq

/-- JWKStore toJSON: the receiver's own buckets in storage order, each key
serialized with the isPrivate flag; the parent is never consulted. -/
def Store.toJSON (st : Store) (isPrivate : Bool) : KeySetJSON :=
  { keys :=
      st.keysets.foldl
        (fun acc pr => acc ++ pr.2.map (fun k => Key.toJSON k isPrivate)) [] }

/-! ## Lookup: get with its argument reconciliation and caller-side heap -/

/-- Heap of caller-owned filter objects, addressed by reference; get can
mutate an entry in place. -/
abbrev Heap := List (Nat × Filter)

def heapLookup : Heap → Nat → Option Filter
  | [], _ => none
  | (r0, f0) :: rest, r => if r0 = r then some f0 else heapLookup rest r

def heapUpdate : Heap → Nat → Filter → Heap
  | [], _, _ => []
  | (r0, f0) :: rest, r, f =>
    if r0 = r then (r, f) :: heapUpdate rest r f
    else (r0, f0) :: heapUpdate rest r f

/-- First argument of get, as its typeof-based reconciliation sees it. -/
inductive GArg1 where
  | undef
  | boolV (b : Bool)
  | nullV
  | objV (r : Nat)
  | strV (s : String)

/-- Second argument of get. -/
inductive GArg2 where
  | undef2
  | objV2 (r : Nat)
  | boolV2 (b : Bool)

def garg2Truthy : GArg2 → Bool
  | .undef2 => false
  | .objV2 _ => true
  | .boolV2 b => b

def garg2PropsRef : GArg2 → Option Nat
  | .objV2 r => some r
  | _ => none

/-- Recursive core of JWKStore get, after the arguments have been reconciled
into a filter value and a local flag. The local candidates are this store's
own all; when they are empty and a parent exists and local is falsy, the
code overwrites the candidates variable with the parent's get result — a Key
object or null, not an array — and still evaluates candidates at index 0:
indexing a Key gives undefined (hence a null result), indexing null throws a
TypeError. -/
def Store.getCore : Store → Filter → Bool → Except JSErr (Option Key)
  | .leaf ks, props, _ => .ok (localAll ks props).head?
  | .node ks p, props, loc =>
    let candidates := Store.all (.node ks p) props true
    if candidates.isEmpty && !loc then
      match Store.getCore p props loc with
      | .error e => .error e
      | .ok (some _) => .ok none
      | .ok none => .error (.typeError "cannot read property 0 of null")
    else .ok candidates.head?

/-- JWKStore get: reconcile the flexible arguments (a boolean first argument
is the local flag, an object or null first argument is the filter, a string
is the kid), default the props object, merge a truthy kid into it in place
(mutating the caller's object when one was passed), then run the lookup
core. Returns the possibly mutated heap together with the call's outcome. -/
def Store.get (st : Store) (h : Heap) (a1 : GArg1) (a2 : GArg2) (a3 : Bool) :
    Heap × Except JSErr (Option Key) :=
  let kid : Option String :=
    match a1 with
    | .strV s => some s
    | _ => none
  let propsRef : Option Nat :=
    match a1 with
    | .boolV _ => none
    | .nullV => none
    | .objV r => some r
    | _ => garg2PropsRef a2
  let loc : Bool :=
    match a1 with
    | .boolV b => b
    | .nullV => garg2Truthy a2
    | .objV _ => garg2Truthy a2
    | _ => a3
  let base : Filter :=
    match propsRef with
    | some r => (heapLookup h r).getD {}
    | none => {}
  let kidT : Bool := strTruthy kid
  let filt : Filter := if kidT then { base with kid := kid } else base
  let h1 : Heap :=
    match propsRef with
    | some r => if kidT then heapUpdate h r filt else h
    | none => h
  (h1, Store.getCore st filt loc)

/-! ## Coercion: asKeyStore -/

/-- Generic JSON values, the result type of the host JSON parser. -/
inductive JVal where
  | jnull
  | jbool (b : Bool)
  | jnum (n : Int)
  | jstr (s : String)
  | jarr (xs : List JVal)
  | jobj (fs : List (String × JVal))

def jobjGet (fs : List (String × JVal)) (name : String) : Option JVal :=
  (fs.find? fun p => p.1 == name).map (·.2)

def jvalGetStr (fs : List (String × JVal)) (name : String) : Option String :=
  match jobjGet fs name with
  | some (.jstr s) => some s
  | _ => none

/-- JWK data read off a plain JSON object: the four filter-relevant string
fields; the remaining string fields are kept as public material. -/
def JWKData.ofJObj (fs : List (String × JVal)) : JWKData :=
  { kty := jvalGetStr fs "kty"
    kid := jvalGetStr fs "kid"
    use := jvalGetStr fs "use"
    alg := jvalGetStr fs "alg"
    pubFields :=
      fs.filterMap fun p =>
        if p.1 == "kty" || p.1 == "kid" || p.1 == "use" || p.1 == "alg" then
          none
        else
          match p.2 with
          | .jstr s => some (p.1, s)
          | _ => none
    privFields := [] }

/-- Classification of one raw key-set entry as add's dynamic checks see it. -/
def addInputOfJVal : JVal → AddInput
  | .jstr s => .text s
  | .jobj fs => .rawData (JWKData.ofJObj fs)
  | _ => .rawData {}

/-- Sequenced effect of the per-entry add calls issued by asKeyStore: a
synchronous throw from any add call surfaces as a throw of the whole
coercion; otherwise the first rejection wins and the store is surfaced only
when every addition resolved. -/
def addEntries (reg : Registry) (parseJWK : String → Option JWKData) :
    List JVal → Store → Nat → JSOutcome Store
  | [], st, _ => .resolved st
  | e :: rest, st, oid =>
    match JWKStore.add reg parseJWK st (addInputOfJVal e) oid with
    | (_, .thrown err) => .thrown err
    | (st2, .resolved _) => addEntries reg parseJWK rest st2 (oid + 1)
    | (st2, .rejected err) =>
      match addEntries reg parseJWK rest st2 (oid + 1) with
      | .thrown e2 => .thrown e2
      | _ => .rejected err

/-- Shape dispatch of asKeyStore on the (possibly parsed) value: an array is
the entry list; an object uses its keys member when present (a non-array
keys member has no map method and throws a TypeError) and is otherwise
rejected with the bare string "invalid keystore"; the in operator on a
primitive throws a TypeError. -/
def asKeyStoreVal (reg : Registry) (parseJWK : String → Option JWKData)
    (v : JVal) (oid : Nat) : JSOutcome Store :=
  match v with
  | .jarr xs => addEntries reg parseJWK xs (.leaf []) oid
  | .jobj fs =>
    match jobjGet fs "keys" with
    | none => .rejected (.stringVal "invalid keystore")
    | some (.jarr xs) => addEntries reg parseJWK xs (.leaf []) oid
    | some _ => .thrown (.typeError "keys map is not a function")
  | _ => .thrown (.typeError "cannot use in operator on a primitive")

/-- Argument of asKeyStore, as its checks classify it: an object passing the
isKeyStore duck check, a string, or a plain JSON value. -/
inductive KSInput where
  | storeInput (s : Store)
  | textInput (t : String)
  | direct (v : JVal)

/-- JWKStore asKeyStore: an existing store is resolved as-is; a string is
parsed by the host JSON parser — a parse failure propagates as a synchronous
throw out of the function, before any promise exists; the parsed or direct
value is then dispatched on its shape. -/
def JWKStore.asKeyStore (reg : Registry) (parse : String → Option JVal)
    (parseJWK : String → Option JWKData) (input : KSInput) (oid : Nat) :
    JSOutcome Store :=
  match input with
  | .storeInput s => .resolved s
  | .textInput t =>
    match parse t with
    | none => .thrown (.syntaxError t)
    | some v => asKeyStoreVal reg parseJWK v oid
  | .direct v => asKeyStoreVal reg parseJWK v oid

/-! ## Derived predicates and concrete fixtures -/

/-- Data of the key carried by a resolved outcome, when there is one. -/
def JSOutcome.keyData : JSOutcome Key → Option JWKData
  | .resolved k => some k.data
  | _ => none

/-- The second store extends the first by exactly the one key k, appended at
the end of the bucket named by k's kid (empty string when falsy); every
other bucket and the parent reference are untouched. -/
def appendedOne (st st2 : Store) (k : Key) : Prop :=
  st2.parentOf = st.parentOf
  ∧ ∀ b, alLookup st2.keysets b
      = if b = k.kid.getD ""
        then some ((alLookup st.keysets (k.kid.getD "")).getD [] ++ [k])
        else alLookup st.keysets b

/-- A configuration whose capability query accepts every algorithm. -/
def cfgAll : KeyCfg := { supports := fun _ => true }

/-- A concrete oct factory whose prepare and generate always succeed. -/
def facOct : Factory :=
  { ktyVal := .strVal "oct"
    generate := fun _ => .ok { kty := some "oct", pubFields := [("k", "gen")] }
    prepare := fun _ => .ok cfgAll }

/-- A registry holding the oct factory. -/
def regC : Registry := [("oct", facOct)]

/-- A JWK-object parser instance for closed evaluations: none of the texts
evaluated below are JWK JSON. -/
def parseJWKC : String → Option JWKData := fun _ => none

/-- A stand-in for the host JSON.parse builtin used in closed evaluations;
it agrees with JSON.parse on the texts evaluated here: the literal text of
an empty array parses, the text "not json" and the text "nope" do not. -/
def jsonParseC : String → Option JVal :=
  fun t => if t = "[]" then some (.jarr []) else none

/-- A key with kid a, stored in the parent fixture. -/
def kA : Key := { oid := 0, data := { kid := some "a" }, supports := fun _ => false }

/-- Parent store holding kA under bucket a. -/
def parentC : Store := .leaf [("a", [kA])]

/-- Child store with no own keys and parentC as parent. -/
def childC : Store := .node [] parentC

/-- The dir filter. -/
def fDir : Filter := { alg := some "dir" }

/-- A key with no algorithm field whose capability query rejects every
algorithm, dir included. -/
def kNoDir : Key := { oid := 0, data := {}, supports := fun _ => false }

/-- A key carrying a private material field, for the add-duplicate claim. -/
def kc : Key :=
  { oid := 0
    data :=
      { kty := some "oct"
        pubFields := [("k", "pub")]
        privFields := [("d", "x")] }
    supports := fun _ => true }

/-- The duplicate that adding kc to an empty store constructs. -/
def kcDup : Key := mkBaseKey (some "oct") (kc.toJSON true) cfgAll 1

/-- A key with no kid field; add stores it under the empty-string bucket. -/
def kNoKid : Key := { oid := 0, data := {}, supports := fun _ => false }

/-- Store holding kNoKid under the empty-string bucket, as add leaves it. -/
def stNoKid : Store := .leaf [("", [kNoKid])]

/-- An add input whose type tag no factory serves. -/
def badIn : AddInput := .rawData { kty := some "nope" }

/-- Two distinct factories sharing the tag EC, for the overwrite claim. -/
def facEC1 : Factory :=
  { ktyVal := .strVal "EC"
    generate := fun _ => .error (.errorMsg "one")
    prepare := fun _ => .error (.errorMsg "one") }

/-- Second EC factory, registered after facEC1. -/
def facEC2 : Factory :=
  { ktyVal := .strVal "EC"
    generate := fun _ => .error (.errorMsg "two")
    prepare := fun _ => .error (.errorMsg "two") }

/-- A key with its own algorithm field set, for the dir witness. -/
def kDirKey : Key :=
  { oid := 1, data := { alg := some "RSA-OAEP" }, supports := fun _ => true }

/-- A key with kid a used by the remove witness. -/
def k1 : Key := { oid := 3, data := { kid := some "a" }, supports := fun _ => true }

/-- Store holding k1 in bucket a. -/
def stW5 : Store := .leaf [("a", [k1])]

/-- A one-entry heap holding an empty caller filter object at reference 0. -/
def hW : Heap := [(0, ({} : Filter))]

/-! ## Helper lemmas -/

theorem alLookup_alSet_eq {β : Type} (m : List (String × β)) (k : String) (v : β) :
    alLookup (alSet m k v) k = some v := by
  induction m with
  | nil => simp [alSet, alLookup]
  | cons hd tl ih =>
    obtain ⟨k0, v0⟩ := hd
    by_cases h : k0 = k <;> simp [alSet, alLookup, h, ih]

theorem alLookup_alSet_ne {β : Type} (m : List (String × β)) (k k2 : String) (v : β)
    (h : k2 ≠ k) : alLookup (alSet m k v) k2 = alLookup m k2 := by
  induction m with
  | nil => simp [alSet, alLookup, Ne.symm h]
  | cons hd tl ih =>
    obtain ⟨k0, v0⟩ := hd
    by_cases h0 : k0 = k
    · subst h0
      simp [alSet, alLookup, Ne.symm h]
    · by_cases h2 : k0 = k2 <;> simp [alSet, alLookup, h0, h2, h, ih]

theorem alLookup_alDelete_self {β : Type} (m : List (String × β)) (k : String)
    (hnd : (m.map Prod.fst).Nodup) : alLookup (alDelete m k) k = none := by
  induction m with
  | nil => simp [alDelete, alLookup]
  | cons hd tl ih =>
    obtain ⟨k0, v0⟩ := hd
    simp only [List.map_cons, List.nodup_cons] at hnd
    by_cases h0 : k0 = k
    · subst h0
      cases hl : alLookup tl k0 with
      | none => simp [alDelete, hl]
      | some v1 =>
        exfalso
        apply hnd.1
        clear ih hnd
        induction tl with
        | nil => simp [alLookup] at hl
        | cons hd2 tl2 ih2 =>
          obtain ⟨k2, v2⟩ := hd2
          by_cases h2 : k2 = k0
          · simp [h2]
          · simp [alLookup, h2] at hl
            simp [ih2 hl]
    · simp [alDelete, alLookup, h0, ih hnd.2]

theorem alLookup_alDelete_ne {β : Type} (m : List (String × β)) (k k2 : String)
    (h : k2 ≠ k) : alLookup (alDelete m k) k2 = alLookup m k2 := by
  induction m with
  | nil => simp [alDelete]
  | cons hd tl ih =>
    obtain ⟨k0, v0⟩ := hd
    by_cases h0 : k0 = k
    · subst h0
      simp [alDelete, alLookup, Ne.symm h]
    · by_cases h2 : k0 = k2 <;> simp [alDelete, alLookup, h0, h2, h, ih]

theorem heapLookup_heapUpdate_eq (h : Heap) (r : Nat) (f0 f : Filter)
    (hr : heapLookup h r = some f0) :
    heapLookup (heapUpdate h r f) r = some f := by
  induction h with
  | nil => simp [heapLookup] at hr
  | cons hd tl ih =>
    obtain ⟨r0, g0⟩ := hd
    by_cases h0 : r0 = r
    · simp [heapUpdate, heapLookup, h0]
    · simp [heapUpdate, heapLookup, h0] at hr ⊢
      exact ih hr

theorem keyIndexOf_lt_length (l : List Key) (k : Key) (i : Nat)
    (h : keyIndexOf l k = some i) : i < l.length := by
  induction l generalizing i with
  | nil => simp [keyIndexOf] at h
  | cons hd tl ih =>
    by_cases h0 : hd.oid == k.oid
    · simp [keyIndexOf, h0] at h
      simp [List.length_cons]
      omega
    · simp [keyIndexOf, h0] at h
      obtain ⟨j, hj, rfl⟩ := h
      have := ih j hj
      simp
      omega

theorem eraseIdx_take_drop {α : Type} :
    ∀ (l : List α) (i : Nat), l.eraseIdx i = l.take i ++ l.drop (i + 1)
  | [], _ => by simp [List.eraseIdx]
  | _ :: _, 0 => by simp [List.eraseIdx]
  | x :: xs, i + 1 => by
    simp [List.eraseIdx, eraseIdx_take_drop xs i]

theorem length_eraseIdx_of_lt {α : Type} (l : List α) (i : Nat)
    (h : i < l.length) : (l.eraseIdx i).length = l.length - 1 := by
  rw [eraseIdx_take_drop]
  simp
  omega

theorem keysets_withKeysets (st : Store) (ks : KeySets) :
    (st.withKeysets ks).keysets = ks := by
  cases st <;> rfl

theorem parentOf_withKeysets (st : Store) (ks : KeySets) :
    (st.withKeysets ks).parentOf = st.parentOf := by
  cases st <;> rfl

theorem foldl_append_map {α β : Type} (g : α → List β) :
    ∀ (l : List α) (acc : List β),
      l.foldl (fun a x => a ++ g x) acc = acc ++ (l.map g).flatten
  | [], acc => by simp
  | x :: xs, acc => by
    simp [foldl_append_map g xs (acc ++ g x), List.append_assoc]

theorem appendedOne_push (st : Store) (k : Key) :
    appendedOne st
      (st.withKeysets (alSet st.keysets (k.kid.getD "")
        ((alLookup st.keysets (k.kid.getD "")).getD [] ++ [k]))) k := by
  refine ⟨parentOf_withKeysets _ _, fun b => ?_⟩
  rw [keysets_withKeysets]
  by_cases hb : b = k.kid.getD ""
  · subst hb
    simp [alLookup_alSet_eq]
  · simp [hb, alLookup_alSet_ne _ _ _ _ hb]

theorem add_text_eq (reg : Registry) (parseJWK : String → Option JWKData)
    (st : Store) (t : String) (d : JWKData) (oid : Nat)
    (hp : parseJWK t = some d) :
    JWKStore.add reg parseJWK st (.text t) oid
      = JWKStore.add reg parseJWK st (.rawData d) oid := by
  simp [JWKStore.add, hp]

theorem add_key_eq (reg : Registry) (parseJWK : String → Option JWKData)
    (st : Store) (k : Key) (oid : Nat) :
    JWKStore.add reg parseJWK st (.keyInput k) oid
      = JWKStore.add reg parseJWK st (.rawData (k.toJSON true)) oid := rfl

theorem add_raw_resolved (reg : Registry) (parseJWK : String → Option JWKData)
    (st : Store) (d : JWKData) (oid : Nat) (fac : Factory) (cfg : KeyCfg)
    (hreg : JWKRegistry.get reg d.kty = some fac)
    (hprep : fac.prepare d = .ok cfg) :
    JWKStore.add reg parseJWK st (.rawData d) oid
      = (st.withKeysets (alSet st.keysets ((mkBaseKey d.kty d cfg oid).kid.getD "")
            ((alLookup st.keysets ((mkBaseKey d.kty d cfg oid).kid.getD "")).getD []
              ++ [mkBaseKey d.kty d cfg oid])),
         .resolved (mkBaseKey d.kty d cfg oid)) := by
  simp [JWKStore.add, hreg, hprep]

theorem add_state_spec (reg : Registry) (parseJWK : String → Option JWKData)
    (st : Store) (input : AddInput) (oid : Nat) :
    (∀ e, (JWKStore.add reg parseJWK st input oid).2 = .thrown e →
        (JWKStore.add reg parseJWK st input oid).1 = st)
    ∧ (∀ e, (JWKStore.add reg parseJWK st input oid).2 = .rejected e →
        (JWKStore.add reg parseJWK st input oid).1 = st)
    ∧ (∀ k, (JWKStore.add reg parseJWK st input oid).2 = .resolved k →
        appendedOne st (JWKStore.add reg parseJWK st input oid).1 k) := by
  have raw : ∀ d : JWKData,
      (∀ e, (JWKStore.add reg parseJWK st (.rawData d) oid).2 = .thrown e →
          (JWKStore.add reg parseJWK st (.rawData d) oid).1 = st)
      ∧ (∀ e, (JWKStore.add reg parseJWK st (.rawData d) oid).2 = .rejected e →
          (JWKStore.add reg parseJWK st (.rawData d) oid).1 = st)
      ∧ (∀ k, (JWKStore.add reg parseJWK st (.rawData d) oid).2 = .resolved k →
          appendedOne st (JWKStore.add reg parseJWK st (.rawData d) oid).1 k) := by
    intro d
    cases hreg : JWKRegistry.get reg d.kty with
    | none => simp [JWKStore.add, hreg]
    | some fac =>
      cases hprep : fac.prepare d with
      | error e => simp [JWKStore.add, hreg, hprep]
      | ok cfg =>
        rw [add_raw_resolved reg parseJWK st d oid fac cfg hreg hprep]
        refine ⟨fun e he => by simp at he, fun e he => by simp at he,
          fun k hk => ?_⟩
        simp only [JSOutcome.resolved.injEq] at hk
        subst hk
        exact appendedOne_push st _
  cases input with
  | text t =>
    cases hp : parseJWK t with
    | none => simp [JWKStore.add, hp]
    | some d => rw [add_text_eq reg parseJWK st t d oid hp]; exact raw d
  | keyInput k => rw [add_key_eq]; exact raw _
  | rawData d => exact raw d

theorem generate_state_spec (reg : Registry)
    (parseJWK : String → Option JWKData) (st : Store) (kty : String)
    (size : KeySize) (props : Option JWKData) (oid : Nat) :
    (∀ e, (JWKStore.generate reg parseJWK st kty size props oid).2 = .thrown e →
        (JWKStore.generate reg parseJWK st kty size props oid).1 = st)
    ∧ (∀ e, (JWKStore.generate reg parseJWK st kty size props oid).2 = .rejected e →
        (JWKStore.generate reg parseJWK st kty size props oid).1 = st)
    ∧ (∀ k, (JWKStore.generate reg parseJWK st kty size props oid).2 = .resolved k →
        appendedOne st (JWKStore.generate reg parseJWK st kty size props oid).1 k) := by
  cases hreg : JWKRegistry.get reg (some kty) with
  | none => simp [JWKStore.generate, hreg]
  | some fac =>
    cases hgen : fac.generate size with
    | error e => simp [JWKStore.generate, hreg, hgen]
    | ok jwk =>
      have heq : JWKStore.generate reg parseJWK st kty size props oid
          = JWKStore.add reg parseJWK st
              (.rawData { mergeData { props.getD {} with kty := some kty } jwk
                  with kty := some kty }) oid := by
        simp [JWKStore.generate, hreg, hgen]
      rw [heq]
      exact add_state_spec reg parseJWK st _ oid

/-! ## Claim theorems -/

/-- C1: the non-local get of a child store with a parent does NOT return the
parent's result directly. Evaluated at the failing input (an empty child
whose parent holds a key under kid a): the lookup the claim describes
succeeds on the parent (second conjunct), yet the child's get returns the
null sentinel (first conjunct), because the code stores the parent's
Key-or-null result into the candidates variable and still indexes it at 0;
when the parent chain finds nothing the call even throws a TypeError instead
of returning null (third conjunct). -/
theorem C1_get_parent_delegation_eval :
    (Store.get childC [] (.strV "a") .undef2 false).2 = .ok none
    ∧ Store.getCore parentC { kid := some "a" } false = .ok (some kA)
    ∧ (Store.get childC [] (.strV "missing") .undef2 false).2
        = .error (.typeError "cannot read property 0 of null") :=
  ⟨rfl, rfl, rfl⟩

/-- C2 counterexample: a key whose capability query rejects dir is not
accepted by the matching rule under the filter alg = dir, and all with that
filter does not return every key of the store — refuting the claim that the
rule accepts every key regardless, subject only to the other clauses. -/
theorem C2_dir_counterexample :
    keyMatches fDir kNoDir = false
    ∧ Store.all (.leaf [("", [kNoDir])]) fDir true = [] :=
  ⟨rfl, rfl⟩

/-- C2 (amended): under a filter whose alg equals the sentinel dir, the
matching rule never consults the key's own algorithm field (changing it
changes nothing), but the key must still pass its capability query for dir:
the rule equals the alg-free rule conjoined with supports dir. -/
theorem C2_dir_match_amended (props : Filter) (key : Key)
    (h : props.alg = some "dir") :
    keyMatches props key
      = (keyMatches { props with alg := none } key && key.supports "dir")
    ∧ ∀ a, keyMatches props { key with data := { key.data with alg := a } }
        = keyMatches props key := by
  constructor
  · simp only [keyMatches, h]
    cases hc1 : (strTruthy props.kty && strTruthy key.kty
        && (props.kty.getD "" != key.kty.getD "")) <;>
      cases hc2 : (strTruthy props.use && strTruthy key.use
          && (props.use.getD "" != key.use.getD "")) <;>
        simp [hc1, hc2, strTruthy]
  · intro a
    simp [keyMatches, h, Key.kty, Key.use, Key.supports]

/-- Witness for the amended C2 at a concrete key whose own algorithm field
is RSA-OAEP. -/
theorem C2_dir_match_witness :
    keyMatches fDir kDirKey
      = (keyMatches { fDir with alg := none } kDirKey
          && kDirKey.supports "dir") :=
  (C2_dir_match_amended fDir kDirKey rfl).1

/-- C8: for a store with a parent, the non-local all is exactly the local
all followed by the parent's own (always non-local) all; hence the local
result is contained in the non-local one, and every non-local element that
is not local comes from the parent. -/
theorem C8_all_parent_spec (ks : KeySets) (p : Store) (f : Filter) :
    Store.all (.node ks p) f false
      = Store.all (.node ks p) f true ++ Store.all p f false
    ∧ (∀ k, k ∈ Store.all (.node ks p) f true →
        k ∈ Store.all (.node ks p) f false)
    ∧ (∀ k, k ∈ Store.all (.node ks p) f false →
        k ∉ Store.all (.node ks p) f true → k ∈ Store.all p f false) := by
  refine ⟨by simp [Store.all], fun k hk => ?_, fun k hk hnk => ?_⟩
  · simp [Store.all] at hk ⊢
    exact Or.inl hk
  · simp [Store.all] at hk hnk
    exact hk.resolve_left hnk

/-- Witness for C8 at a concrete child and parent: the key held only by the
parent appears in the child's non-local result and indeed comes from the
parent. -/
theorem C8_all_parent_spec_witness :
    kA ∈ Store.all parentC ({} : Filter) false :=
  (C8_all_parent_spec [] parentC {}).2.2 kA
    (by rw [show Store.all (.node [] parentC) ({} : Filter) false = [kA] from rfl]
        exact List.mem_singleton_self kA)
    (by rw [show Store.all (.node [] parentC) ({} : Filter) true = ([] : List Key)
          from rfl]
        exact List.not_mem_nil kA)

/-- C9: toJSON never consults the parent (a store with any parent serializes
exactly like the parentless store with the same keysets), and its keys
member is exactly the contained keys' JSON representations concatenated
bucket by bucket in storage order. -/
theorem C9_toJSON_local_only (ks : KeySets) (p : Store) (b : Bool)
    (st : Store) :
    Store.toJSON (.node ks p) b = Store.toJSON (.leaf ks) b
    ∧ (Store.toJSON st b).keys
        = (st.keysets.map fun pr => pr.2.map fun k => Key.toJSON k b).flatten := by
  constructor
  · rfl
  · show st.keysets.foldl
        (fun acc pr => acc ++ pr.2.map (fun k => Key.toJSON k b)) [] = _
    rw [foldl_append_map (fun pr => pr.2.map fun k => Key.toJSON k b) st.keysets []]
    simp

/-- C10: calling get with a non-empty kid string and a caller-supplied
filter object assigns the kid into that very object: after the call the
caller's object, read back through its reference, carries the kid field. -/
theorem C10_get_mutates_props (st : Store) (h : Heap) (r : Nat) (f : Filter)
    (s : String) (b : Bool) (hs : s ≠ "") (hr : heapLookup h r = some f) :
    heapLookup (Store.get st h (.strV s) (.objV2 r) b).1 r
      = some { f with kid := some s } := by
  simp only [Store.get, garg2PropsRef, strTruthy, hr, Option.getD_some]
  rw [if_neg hs]
  simp only [if_true]
  exact heapLookup_heapUpdate_eq h r f _ hr

/-- Witness for C10: on a concrete one-entry heap the empty filter object at
reference 0 carries kid1 after the call. -/
theorem C10_get_mutates_props_witness :
    heapLookup (Store.get (Store.leaf []) hW (.strV "kid1") (.objV2 0) false).1 0
      = some { kid := some "kid1" } :=
  C10_get_mutates_props (Store.leaf []) hW 0 {} "kid1" false (by decide) rfl

/-- C3 counterexample: adding the key kc, which carries the private material
field d, to a store resolves with a stored key whose data still contains
that private field — the normalization used is NOT the public representation
with private fields excluded (which would have an empty private part, second
conjunct), but the complete toJSON(true) form. -/
theorem C3_add_private_counterexample :
    ((JWKStore.add regC parseJWKC (.leaf []) (.keyInput kc) 1).2.keyData).map
        JWKData.privFields = some [("d", "x")]
    ∧ (kc.toJSON false).privFields = [] :=
  ⟨rfl, rfl⟩

/-- C3 (amended): adding an existing Key to a store normalizes it to its
COMPLETE JSON representation, toJSON(true) with private fields included, and
constructs a new independent Key from that representation: the stored key is
never the same instance as the input (its object identity is the fresh one)
and its data is the input's private-inclusive serialization. -/
theorem C3_add_key_duplicate_amended (reg : Registry)
    (parseJWK : String → Option JWKData) (st : Store) (k k2 : Key)
    (oid : Nat) (hfresh : oid ≠ k.oid)
    (hres : (JWKStore.add reg parseJWK st (.keyInput k) oid).2 = .resolved k2) :
    k2 ≠ k ∧ k2.data = k.toJSON true
      ∧ k2.data.privFields = k.data.privFields := by
  rw [add_key_eq] at hres
  cases hreg : JWKRegistry.get reg (k.toJSON true).kty with
  | none =>
    rw [show (JWKStore.add reg parseJWK st (.rawData (k.toJSON true)) oid).2
        = .rejected (.errorMsg "unsupported key type") by
      simp [JWKStore.add, hreg]] at hres
    exact absurd hres (by simp)
  | some fac =>
    cases hprep : fac.prepare (k.toJSON true) with
    | error e =>
      rw [show (JWKStore.add reg parseJWK st (.rawData (k.toJSON true)) oid).2
          = .rejected e by simp [JWKStore.add, hreg, hprep]] at hres
      exact absurd hres (by simp)
    | ok cfg =>
      rw [add_raw_resolved reg parseJWK st (k.toJSON true) oid fac cfg hreg hprep]
        at hres
      simp only [JSOutcome.resolved.injEq] at hres
      subst hres
      refine ⟨fun hcontra => hfresh ?_, by simp [mkBaseKey], ?_⟩
      · exact congrArg Key.oid hcontra
      · simp [mkBaseKey, Key.toJSON]

/-- Witness for the amended C3: the concrete duplicate of kc differs from kc
and carries kc's full serialization, private field included. -/
theorem C3_add_key_duplicate_witness :
    kcDup ≠ kc ∧ kcDup.data = kc.toJSON true
      ∧ kcDup.data.privFields = kc.data.privFields :=
  C3_add_key_duplicate_amended regC parseJWKC (.leaf []) kc kcDup 1
    (by decide) rfl

/-- C4 counterexample: on the unparseable text "not json" the coercion's
outcome is a synchronous throw of the parse error — in particular it is not
an asynchronous rejection carrying that error — refuting the claim that the
parse failure is surfaced as a rejected result rather than a throw. -/
theorem C4_asKeyStore_sync_throw_counterexample :
    JWKStore.asKeyStore regC jsonParseC parseJWKC (.textInput "not json") 0
      = .thrown (.syntaxError "not json")
    ∧ JWKStore.asKeyStore regC jsonParseC parseJWKC (.textInput "not json") 0
      ≠ .rejected (.syntaxError "not json") := by
  refine ⟨rfl, ?_⟩
  rw [show JWKStore.asKeyStore regC jsonParseC parseJWKC (.textInput "not json") 0
      = .thrown (.syntaxError "not json") from rfl]
  simp

/-- C4 (amended): for every textual input the host parser cannot parse,
asKeyStore surfaces the failure as a SYNCHRONOUS throw of the parse error to
the caller — never a silently empty store; the asynchronous-rejection
channel is used for the invalid-shape case (an object without a keys
member), not for text parse failures. -/
theorem C4_asKeyStore_parse_amended (reg : Registry)
    (parse : String → Option JVal) (parseJWK : String → Option JWKData)
    (t : String) (oid : Nat) (h : parse t = none) :
    JWKStore.asKeyStore reg parse parseJWK (.textInput t) oid
      = .thrown (.syntaxError t)
    ∧ ∀ fs, jobjGet fs "keys" = none →
        JWKStore.asKeyStore reg parse parseJWK (.direct (.jobj fs)) oid
          = .rejected (.stringVal "invalid keystore") := by
  constructor
  · simp [JWKStore.asKeyStore, h]
  · intro fs hfs
    simp [JWKStore.asKeyStore, asKeyStoreVal, hfs]

/-- Witness for the amended C4 at the concrete unparseable text "nope" and
the concrete keyless object. -/
theorem C4_asKeyStore_parse_witness :
    JWKStore.asKeyStore regC jsonParseC parseJWKC (.textInput "nope") 0
      = .thrown (.syntaxError "nope")
    ∧ JWKStore.asKeyStore regC jsonParseC parseJWKC (.direct (.jobj [])) 0
      = .rejected (.stringVal "invalid keystore") :=
  ⟨(C4_asKeyStore_parse_amended regC jsonParseC parseJWKC "nope" 0 rfl).1,
   (C4_asKeyStore_parse_amended regC jsonParseC parseJWKC "nope" 0 rfl).2 [] rfl⟩

/-- C5 counterexample: the key kNoKid has no kid field, so add stored it
under the empty-string bucket, but remove reads the bucket for the raw kid
property — the string "undefined" after JavaScript property-key coercion —
finds no bucket, and is a no-op: the key is still present afterwards,
refuting the claim that remove locates a kid-less key in the empty-string
bucket and removes it. -/
theorem C5_remove_missing_kid_counterexample :
    JWKStore.remove stNoKid (some kNoKid) = stNoKid
    ∧ alLookup (JWKStore.remove stNoKid (some kNoKid)).keysets ""
      = some [kNoKid] :=
  ⟨rfl, rfl⟩

/-- C5 (amended): remove never throws (it is total) and locates the bucket
by the key's kid field directly, with no empty-string fallback. For a key
whose kid is a string: when the bucket is missing or the key is not found by
identity, remove is a no-op; when found, exactly that occurrence is spliced
out with the order of the remaining keys preserved, the bucket entry is
deleted when it empties, other buckets and the parent are untouched. An
absent key is a no-op, and a key with NO kid — stored by add under the
empty-string bucket — is looked up under the coerced bucket name
"undefined", so (absent such a bucket) remove is a no-op for it. -/
theorem C5_remove_spec (st : Store) (k : Key)
    (hnd : (st.keysets.map Prod.fst).Nodup) :
    JWKStore.remove st none = st
    ∧ (∀ s, k.kid = some s → alLookup st.keysets s = none →
        JWKStore.remove st (some k) = st)
    ∧ (∀ s bucket, k.kid = some s → alLookup st.keysets s = some bucket →
        keyIndexOf bucket k = none → JWKStore.remove st (some k) = st)
    ∧ (∀ s bucket i, k.kid = some s → alLookup st.keysets s = some bucket →
        keyIndexOf bucket k = some i →
        alLookup (JWKStore.remove st (some k)).keysets s
          = (if bucket.length = 1 then none
             else some (bucket.take i ++ bucket.drop (i + 1)))
        ∧ (∀ b, b ≠ s →
            alLookup (JWKStore.remove st (some k)).keysets b
              = alLookup st.keysets b)
        ∧ (JWKStore.remove st (some k)).parentOf = st.parentOf)
    ∧ (k.kid = none → alLookup st.keysets "undefined" = none →
        JWKStore.remove st (some k) = st) := by
  refine ⟨rfl, ?_, ?_, ?_, ?_⟩
  · intro s hk hb
    simp [JWKStore.remove, removeBucketName, hk, hb]
  · intro s bucket hk hb hidx
    simp [JWKStore.remove, removeBucketName, hk, hb, hidx]
  · intro s bucket i hk hb hidx
    have hi : i < bucket.length := keyIndexOf_lt_length bucket k i hidx
    have hrm : JWKStore.remove st (some k)
        = if (bucket.eraseIdx i).isEmpty
          then st.withKeysets (alDelete st.keysets s)
          else st.withKeysets (alSet st.keysets s (bucket.eraseIdx i)) := by
      simp [JWKStore.remove, removeBucketName, hk, hb, hidx]
    by_cases hl : bucket.length = 1
    · have hnil : bucket.eraseIdx i = [] := by
        have := length_eraseIdx_of_lt bucket i hi
        rw [hl] at this
        exact List.eq_nil_of_length_eq_zero (by omega)
      rw [hrm, hnil]
      refine ⟨?_, fun b hbne => ?_, ?_⟩
      · simp only [List.isEmpty_nil, if_true, keysets_withKeysets, if_pos hl]
        exact alLookup_alDelete_self st.keysets s hnd
      · simp only [List.isEmpty_nil, if_true, keysets_withKeysets]
        exact alLookup_alDelete_ne st.keysets s b hbne
      · simp only [List.isEmpty_nil, if_true]
        exact parentOf_withKeysets st _
    · have hne : (bucket.eraseIdx i).isEmpty = false := by
        have := length_eraseIdx_of_lt bucket i hi
        cases he : bucket.eraseIdx i with
        | nil => rw [he] at this; simp at this; omega
        | cons hd tl => rfl
      rw [hrm, hne]
      refine ⟨?_, fun b hbne => ?_, ?_⟩
      · simp only [Bool.false_eq_true, if_false, keysets_withKeysets, if_neg hl]
        rw [alLookup_alSet_eq, eraseIdx_take_drop]
      · simp only [Bool.false_eq_true, if_false, keysets_withKeysets]
        exact alLookup_alSet_ne st.keysets s b _ hbne
      · simp only [Bool.false_eq_true, if_false]
        exact parentOf_withKeysets st _
  · intro hk hb
    simp [JWKStore.remove, removeBucketName, hk, hb]

/-- Witness for the amended C5: removing the concrete key k1 (kid a, the
bucket's only element) deletes the bucket entry. -/
theorem C5_remove_spec_witness :
    alLookup (JWKStore.remove stW5 (some k1)).keysets "a" = none := by
  have h := ((C5_remove_spec stW5 k1 (by simp [stW5, Store.keysets])).2.2.2.1
    "a" [k1] 0 rfl rfl rfl).1
  simpa using h

/-- C6: add and generate mutate the keysets only after every fallible step
succeeded: every synchronous throw and every rejection leaves the store
completely unchanged, and a resolved outcome appends exactly the one new key
to the bucket named by its kid, touching nothing else. -/
theorem C6_add_generate_atomicity (reg : Registry)
    (parseJWK : String → Option JWKData) (st : Store) (input : AddInput)
    (kty : String) (size : KeySize) (props : Option JWKData) (oid : Nat) :
    (∀ e, (JWKStore.add reg parseJWK st input oid).2 = .thrown e →
        (JWKStore.add reg parseJWK st input oid).1 = st)
    ∧ (∀ e, (JWKStore.add reg parseJWK st input oid).2 = .rejected e →
        (JWKStore.add reg parseJWK st input oid).1 = st)
    ∧ (∀ k, (JWKStore.add reg parseJWK st input oid).2 = .resolved k →
        appendedOne st (JWKStore.add reg parseJWK st input oid).1 k)
    ∧ (∀ e, (JWKStore.generate reg parseJWK st kty size props oid).2 = .thrown e →
        (JWKStore.generate reg parseJWK st kty size props oid).1 = st)
    ∧ (∀ e, (JWKStore.generate reg parseJWK st kty size props oid).2 = .rejected e →
        (JWKStore.generate reg parseJWK st kty size props oid).1 = st)
    ∧ (∀ k, (JWKStore.generate reg parseJWK st kty size props oid).2 = .resolved k →
        appendedOne st (JWKStore.generate reg parseJWK st kty size props oid).1 k) := by
  obtain ⟨a1, a2, a3⟩ := add_state_spec reg parseJWK st input oid
  obtain ⟨g1, g2, g3⟩ := generate_state_spec reg parseJWK st kty size props oid
  exact ⟨a1, a2, a3, g1, g2, g3⟩

/-- Witness for C6: a concrete rejected add (unsupported type tag) leaves
the concrete empty store unchanged. -/
theorem C6_add_generate_atomicity_witness :
    (JWKStore.add regC parseJWKC (.leaf []) badIn 0).1 = Store.leaf [] :=
  (C6_add_generate_atomicity regC parseJWKC (.leaf []) badIn "oct"
    .sizeAbsent none 0).2.1 (.errorMsg "unsupported key type") rfl

/-- C7: register throws exactly when the factory is absent or its kty tag is
not a non-empty string; a successful registration makes get on that tag
yield the factory while every other tag is unaffected, so registering two
factories with the same tag leaves only the second in effect. -/
theorem C7_register_spec (reg : Registry) (f : Option Factory) :
    ((∃ e, JWKRegistry.register reg f = .error e) ↔
      ¬ ∃ fc s, f = some fc ∧ fc.ktyVal = .strVal s ∧ s ≠ "")
    ∧ (∀ fc s reg2, f = some fc → fc.ktyVal = .strVal s →
        JWKRegistry.register reg f = .ok reg2 →
        JWKRegistry.get reg2 (some s) = some fc
        ∧ ∀ t, t ≠ s →
            JWKRegistry.get reg2 (some t) = JWKRegistry.get reg (some t))
    ∧ (∀ fc1 fc2 s r1 r2, fc1.ktyVal = .strVal s → fc2.ktyVal = .strVal s →
        JWKRegistry.register reg (some fc1) = .ok r1 →
        JWKRegistry.register r1 (some fc2) = .ok r2 →
        JWKRegistry.get r2 (some s) = some fc2) := by
  have hsucc : ∀ (r : Registry) (fc : Factory) (s : String) (r2 : Registry),
      fc.ktyVal = .strVal s → JWKRegistry.register r (some fc) = .ok r2 →
      r2 = alSet r s fc ∧ s ≠ "" := by
    intro r fc s r2 hkty hok
    simp only [JWKRegistry.register, hkty] at hok
    by_cases hs : s = ""
    · rw [if_pos hs] at hok
      exact absurd hok (by simp)
    · rw [if_neg hs] at hok
      simp only [Except.ok.injEq] at hok
      exact ⟨hok.symm, hs⟩
  refine ⟨?_, ?_, ?_⟩
  · constructor
    · rintro ⟨e, he⟩ ⟨fc, s, rfl, hkty, hs⟩
      simp [JWKRegistry.register, hkty, hs] at he
    · intro hno
      match f with
      | none => exact ⟨.errorMsg "invalid Key factory", rfl⟩
      | some fc =>
        match hkty : fc.ktyVal with
        | .missing =>
          exact ⟨.errorMsg "invalid Key factory",
            by simp [JWKRegistry.register, hkty]⟩
        | .nonString =>
          exact ⟨.errorMsg "invalid Key factory",
            by simp [JWKRegistry.register, hkty]⟩
        | .strVal s =>
          by_cases hs : s = ""
          · exact ⟨.errorMsg "invalid Key factory",
              by simp [JWKRegistry.register, hkty, hs]⟩
          · exact absurd ⟨fc, s, rfl, hkty, hs⟩ hno
  · rintro fc s reg2 rfl hkty hok
    obtain ⟨rfl, hs⟩ := hsucc reg fc s reg2 hkty hok
    refine ⟨?_, fun t ht => ?_⟩
    · show alLookup (alSet reg s fc) s = some fc
      exact alLookup_alSet_eq reg s fc
    · show alLookup (alSet reg s fc) t = alLookup reg t
      exact alLookup_alSet_ne reg s t fc ht
  · intro fc1 fc2 s r1 r2 h1 h2 hr1 hr2
    obtain ⟨rfl, -⟩ := hsucc r1 fc2 s r2 h2 hr2
    exact alLookup_alSet_eq r1 s fc2

/-- Witness for C7: concretely registering facEC1 then facEC2 under the
shared tag EC leaves get returning facEC2. -/
theorem C7_register_spec_witness :
    JWKRegistry.get (alSet (alSet [] "EC" facEC1) "EC" facEC2) (some "EC")
      = some facEC2 :=
  (C7_register_spec [] (some facEC1)).2.2 facEC1 facEC2 "EC"
    (alSet [] "EC" facEC1) (alSet (alSet [] "EC" facEC1) "EC" facEC2)
    rfl rfl rfl rfl

end Jwk
